import Mathlib

/-!
Shallow embedding of `src/index.ts` of the `formap` repository.

The embedding models the core `formToMap` function (walker + merge engine +
orchestration) and its helper `getChildValue`.  JavaScript `Map` objects are
modelled as ordered association lists (`OMap`): `Map.prototype.set` updates an
existing key in place and appends a fresh key at the end, `Map.prototype.get`
returns the first (unique) binding, `Map.prototype.delete` removes it — which
is exactly what `setVal`, `getVal` and `delVal` below implement.
JSON-compatible values (`JSONValue` in the source) are modelled by `JValue`;
the JavaScript `undefined` that the mutator may return is modelled by `Option`
(`none` = `undefined`), so a stored value can never be `undefined`, matching
the `JSONValidMap` typing of the source.
-/

namespace Formap

/-- JSON-compatible runtime values (`JSONValue` from `json-types2`). -/
inductive JValue where
  | null
  | str (s : String)
  | bool (b : Bool)
  | num (n : Int)
  | arr (elems : List JValue)
  | obj (fields : List (String × JValue))

mutual

/-- Decidable structural equality on JSON values (written by hand because
`deriving DecidableEq` does not support the nested `List` occurrences). -/
def JValue.decEq : (a b : JValue) → Decidable (a = b)
  | .null, .null => isTrue rfl
  | .str a, .str b =>
    if h : a = b then isTrue (h ▸ rfl) else isFalse (fun hh => h (JValue.str.inj hh))
  | .bool a, .bool b =>
    if h : a = b then isTrue (h ▸ rfl) else isFalse (fun hh => h (JValue.bool.inj hh))
  | .num a, .num b =>
    if h : a = b then isTrue (h ▸ rfl) else isFalse (fun hh => h (JValue.num.inj hh))
  | .arr xs, .arr ys =>
    match JValue.decEqArr xs ys with
    | isTrue h => isTrue (h ▸ rfl)
    | isFalse h => isFalse (fun hh => h (JValue.arr.inj hh))
  | .obj fs, .obj gs =>
    match JValue.decEqObj fs gs with
    | isTrue h => isTrue (h ▸ rfl)
    | isFalse h => isFalse (fun hh => h (JValue.obj.inj hh))
  | .null, .str _ => isFalse (fun h => JValue.noConfusion h)
  | .null, .bool _ => isFalse (fun h => JValue.noConfusion h)
  | .null, .num _ => isFalse (fun h => JValue.noConfusion h)
  | .null, .arr _ => isFalse (fun h => JValue.noConfusion h)
  | .null, .obj _ => isFalse (fun h => JValue.noConfusion h)
  | .str _, .null => isFalse (fun h => JValue.noConfusion h)
  | .str _, .bool _ => isFalse (fun h => JValue.noConfusion h)
  | .str _, .num _ => isFalse (fun h => JValue.noConfusion h)
  | .str _, .arr _ => isFalse (fun h => JValue.noConfusion h)
  | .str _, .obj _ => isFalse (fun h => JValue.noConfusion h)
  | .bool _, .null => isFalse (fun h => JValue.noConfusion h)
  | .bool _, .str _ => isFalse (fun h => JValue.noConfusion h)
  | .bool _, .num _ => isFalse (fun h => JValue.noConfusion h)
  | .bool _, .arr _ => isFalse (fun h => JValue.noConfusion h)
  | .bool _, .obj _ => isFalse (fun h => JValue.noConfusion h)
  | .num _, .null => isFalse (fun h => JValue.noConfusion h)
  | .num _, .str _ => isFalse (fun h => JValue.noConfusion h)
  | .num _, .bool _ => isFalse (fun h => JValue.noConfusion h)
  | .num _, .arr _ => isFalse (fun h => JValue.noConfusion h)
  | .num _, .obj _ => isFalse (fun h => JValue.noConfusion h)
  | .arr _, .null => isFalse (fun h => JValue.noConfusion h)
  | .arr _, .str _ => isFalse (fun h => JValue.noConfusion h)
  | .arr _, .bool _ => isFalse (fun h => JValue.noConfusion h)
  | .arr _, .num _ => isFalse (fun h => JValue.noConfusion h)
  | .arr _, .obj _ => isFalse (fun h => JValue.noConfusion h)
  | .obj _, .null => isFalse (fun h => JValue.noConfusion h)
  | .obj _, .str _ => isFalse (fun h => JValue.noConfusion h)
  | .obj _, .bool _ => isFalse (fun h => JValue.noConfusion h)
  | .obj _, .num _ => isFalse (fun h => JValue.noConfusion h)
  | .obj _, .arr _ => isFalse (fun h => JValue.noConfusion h)

def JValue.decEqArr : (xs ys : List JValue) → Decidable (xs = ys)
  | [], [] => isTrue rfl
  | [], _ :: _ => isFalse (fun h => List.noConfusion h)
  | _ :: _, [] => isFalse (fun h => List.noConfusion h)
  | x :: xs, y :: ys =>
    match JValue.decEq x y, JValue.decEqArr xs ys with
    | isTrue h1, isTrue h2 => isTrue (by subst h1; subst h2; rfl)
    | isFalse h1, _ => isFalse (by intro h; injection h with ha hb; exact h1 ha)
    | _, isFalse h2 => isFalse (by intro h; injection h with ha hb; exact h2 hb)

def JValue.decEqObj : (fs gs : List (String × JValue)) → Decidable (fs = gs)
  | [], [] => isTrue rfl
  | [], _ :: _ => isFalse (fun h => List.noConfusion h)
  | _ :: _, [] => isFalse (fun h => List.noConfusion h)
  | (k, x) :: fs, (l, y) :: gs =>
    if hk : k = l then
      match JValue.decEq x y, JValue.decEqObj fs gs with
      | isTrue h1, isTrue h2 => isTrue (by subst hk; subst h1; subst h2; rfl)
      | isFalse h1, _ => isFalse (by
          intro h; injection h with hp hr
          injection hp with hpk hpv; exact h1 hpv)
      | _, isFalse h2 => isFalse (by intro h; injection h with hp hr; exact h2 hr)
    else
      isFalse (by
        intro h; injection h with hp hr
        injection hp with hpk hpv; exact hk hpk)

end

instance : DecidableEq JValue := JValue.decEq

/-- Ordered mapping from names to values: the model of a JS `Map<string, JSONValue>`. -/
abbrev OMap := List (String × JValue)

/-- `Map.prototype.get`: first binding of `k`, `none` when absent (JS `undefined`). -/
def getVal (m : OMap) (k : String) : Option JValue :=
  (m.find? (fun p => p.1 == k)).map Prod.snd

/-- `Map.prototype.set`: replace in place when the key exists, else append. -/
def setVal (m : OMap) (k : String) (v : JValue) : OMap :=
  if m.any (fun p => p.1 == k) then
    m.map (fun p => if p.1 = k then (k, v) else p)
  else
    m ++ [(k, v)]

/-- `Map.prototype.delete`. -/
def delVal (m : OMap) (k : String) : OMap :=
  m.filter (fun p => !(p.1 == k))

/-- JavaScript `String.prototype.toLowerCase` restricted to the ASCII type
names compared against it.  (Extensionally this is `String.toLower`, which is
defined through `String.mapAux` and therefore does not reduce inside the
kernel; mapping over `String.data` does.) -/
def toLowerStr (s : String) : String :=
  String.mk (s.data.map Char.toLower)

/-- Tag name of a form control matched by the query
`":is(input, select, textarea)[name]:enabled"` (src/index.ts line 149). -/
inductive Tag where
  | input
  | select
  | textarea
deriving DecidableEq

/-- A form control (`HTMLInputElement | HTMLSelectElement | HTMLTextAreaElement`).

`nameAttr` is the `name` attribute: `none` when the attribute is absent
(the CSS selector `[name]` tests attribute presence, and an element may carry
`name=""`, which still has the attribute); the `name` IDL property the loop
reads (src/index.ts line 175) is `nameAttr.getD ""`.  `type` is the `type` IDL
string of the element.  `getValue` models the optional custom extractor probed
at src/index.ts lines 233-235: when the capability is present it is a zero
argument function, so in a pure model it is just the value it would return
(trusted JSON-compatible, hence a `JValue`). -/
structure Control where
  tag : Tag
  type : String
  nameAttr : Option String
  disabled : Bool
  value : String
  checked : Bool
  multiple : Bool
  selectedOptions : List String
  getValue : Option JValue
deriving DecidableEq

/-- The form: its descendant controls in document order, as enumerated by
`formElement.querySelectorAll` (src/index.ts lines 145-151). -/
structure Form where
  controls : List Control
deriving DecidableEq

/-- Whether a control is matched by `":is(input, select, textarea)[name]:enabled"`:
it carries a `name` attribute (possibly empty) and is not disabled.  The tag
alternation is represented by the `Tag` type itself. -/
def matchesSelector (c : Control) : Bool :=
  c.nameAttr.isSome && !c.disabled

/-- The in-loop type skip of src/index.ts lines 171-173. -/
def skippedType (c : Control) : Bool :=
  ["submit", "button", "reset", "file"].contains (toLowerStr c.type)

/-- `getChildValue` (src/index.ts lines 232-257): custom `getValue()` wins;
else start from `child.value`; a multiple `select` yields its selected options;
a checkable `input` (checkbox/radio) yields its value when checked and `null`
otherwise. -/
def getChildValue (child : Control) : JValue :=
  match child.getValue with
  | some v => v
  | none =>
    let childValue : JValue :=
      if child.tag = Tag.select ∧ child.multiple then
        JValue.arr (child.selectedOptions.map JValue.str)
      else
        JValue.str child.value
    if child.tag = Tag.input ∧ ["checkbox", "radio"].contains (toLowerStr child.type) then
      if child.checked then childValue else JValue.null
    else
      childValue

/-- Loop body of src/index.ts lines 178-203: merge one walked `(name, value)`
pair into the mapping.  `previousValue == null` is loose equality, true both
when the key is absent (JS `undefined`) and when the stored value is `null`. -/
def foldStep (data : OMap) (childName : String) (childValue : JValue) : OMap :=
  match getVal data childName with
  | none => setVal data childName childValue
  | some previousValue =>
    if previousValue = JValue.null then
      setVal data childName childValue
    else if childValue = JValue.null then
      data
    else
      match previousValue, childValue with
      | JValue.arr xs, JValue.arr ys => setVal data childName (JValue.arr (xs ++ ys))
      | JValue.arr xs, v => setVal data childName (JValue.arr (xs ++ [v]))
      | prev, JValue.arr ys => setVal data childName (JValue.arr (prev :: ys))
      | prev, v => setVal data childName (JValue.arr [prev, v])

/-- Body of the mutation callback of src/index.ts lines 218-226 for the visited
entry `kv`.  A `none` result models the mutator returning `undefined`
(`newValue === undefined` deletes the entry); `newValue !== value` is the
guard before `data.set`. -/
def mutStep (mutator : String → JValue → Option JValue) (d : OMap) (kv : String × JValue) :
    OMap :=
  match mutator kv.1 kv.2 with
  | none => delVal d kv.1
  | some newValue => if newValue = kv.2 then d else setVal d kv.1 newValue

/-- The mutation pass of src/index.ts lines 217-227.  `data.forEach` visits the
entries present when iteration starts, in insertion order; since the callback
only ever deletes or overwrites the key it is visiting, iterating that snapshot
is exact. -/
def applyMutator (mutator : String → JValue → Option JValue) (data : OMap) : OMap :=
  data.foldl (mutStep mutator) data

/-- Options of `formToMap` (`IFormToSerializableOptions`).  Seed entries are
consumed in their own order whether they come from a `Map` or from
`Object.entries` of a plain object, so both are modelled as ordered pair
lists. -/
structure FormToMapOptions where
  mutator : Option (String → JValue → Option JValue) := none
  append : List (String × JValue) := []
  prepend : List (String × JValue) := []

/-- The runtime argument of `formToMap`: `null`/`undefined`, some value that is
not an `HTMLFormElement` instance, or a genuine form. -/
inductive FormArg where
  | nullish
  | nonFormValue
  | form (f : Form)

/-- The error thrown at src/index.ts line 128. -/
inductive FormToMapError where
  | invalidArgument
deriving DecidableEq

/-- Body of `formToMap` for a validated form: prepend seeds, walk-and-merge the
matched children (src/index.ts lines 131-203), append seeds, then the optional
mutation pass. -/
def buildMap (formElement : Form) (opts : FormToMapOptions) : OMap :=
  let data : OMap := []
  let data := opts.prepend.foldl (fun d kv => setVal d kv.1 kv.2) data
  let children := formElement.controls.filter matchesSelector
  let data := children.foldl
    (fun d child =>
      if skippedType child then d
      else foldStep d (child.nameAttr.getD "") (getChildValue child))
    data
  let data := opts.append.foldl (fun d kv => setVal d kv.1 kv.2) data
  match opts.mutator with
  | none => data
  | some mutator => applyMutator mutator data

/-- `formToMap` (src/index.ts lines 123-230): the guard of lines 127-129 throws
`InvalidArgument` for anything that is not an `HTMLFormElement` instance,
before any traversal; otherwise the mapping is built and returned. -/
def formToMap (formElement : FormArg) (opts : FormToMapOptions) :
    Except FormToMapError OMap :=
  match formElement with
  | FormArg.nullish => Except.error FormToMapError.invalidArgument
  | FormArg.nonFormValue => Except.error FormToMapError.invalidArgument
  | FormArg.form f => Except.ok (buildMap f opts)

/-- The walker's output (spec 4.1): the ordered `(name, value)` pairs of the
eligible controls — those matched by the query of line 149 and not skipped by
the type test of line 171. -/
def walkedPairs (f : Form) : List (String × JValue) :=
  (f.controls.filter matchesSelector).filterMap
    (fun child =>
      if skippedType child then none
      else some (child.nameAttr.getD "", getChildValue child))

/-! ### Analysis helpers for the merge engine -/

/-- Non-null, non-array JSON scalars (string, boolean, number). -/
def JValue.isScalar : JValue → Bool
  | .str _ => true
  | .bool _ => true
  | .num _ => true
  | _ => false

/-- A mapping holding at most the single binding `nm ↦ cur` (`none` = absent). -/
def entryMap (nm : String) : Option JValue → OMap
  | none => []
  | some w => [(nm, w)]

/-- Action of the merge loop body (src/index.ts lines 178-203) on the one entry
it touches, `cur` being the current state of that entry. -/
def entryStep (cur : Option JValue) (v : JValue) : JValue :=
  match cur with
  | none => v
  | some prev =>
    if prev = JValue.null then v
    else if v = JValue.null then prev
    else
      match prev, v with
      | JValue.arr xs, JValue.arr ys => JValue.arr (xs ++ ys)
      | JValue.arr xs, w => JValue.arr (xs ++ [w])
      | p, JValue.arr ys => JValue.arr (p :: ys)
      | p, w => JValue.arr [p, w]

/-- Iterated `entryStep` over a sequence of walked values for one name. -/
def entryFold (cur : Option JValue) (vs : List JValue) : Option JValue :=
  vs.foldl (fun c v => some (entryStep c v)) cur

/-- The values of `vs` that are not `null`. -/
def nonNulls : List JValue → List JValue
  | [] => []
  | v :: vs => if v = JValue.null then nonNulls vs else v :: nonNulls vs

/-- A singleton value list collapses to the bare value; any other length is an
array — the shape the merge loop gives a name's entry. -/
def collapsedEntry (vs : List JValue) : JValue :=
  match vs with
  | [v] => v
  | _ => JValue.arr vs

/-- A scalar entry extended by the later non-null values `fs`. -/
def extendScalar (w : JValue) (fs : List JValue) : JValue :=
  match fs with
  | [] => w
  | _ => JValue.arr (w :: fs)

/-- Final entry for a name whose walked values were `vs` (each null or scalar),
starting from no entry. -/
def mergedEntry (vs : List JValue) : JValue :=
  match nonNulls vs with
  | [] => JValue.null
  | f :: fs => extendScalar f fs

/-! ### Concrete controls used by witnesses -/

/-- A plain enabled text input. -/
def textInput (nm v : String) : Control :=
  { tag := Tag.input, type := "text", nameAttr := some nm, disabled := false,
    value := v, checked := false, multiple := false, selectedOptions := [], getValue := none }

/-- An enabled checkbox. -/
def checkboxInput (nm v : String) (ck : Bool) : Control :=
  { tag := Tag.input, type := "checkbox", nameAttr := some nm, disabled := false,
    value := v, checked := ck, multiple := false, selectedOptions := [], getValue := none }

/-- A checkbox-shaped custom element whose `getValue()` returns `{n: 1}`. -/
def customCheckbox : Control :=
  { tag := Tag.input, type := "checkbox", nameAttr := some "custom", disabled := false,
    value := "native", checked := false, multiple := false, selectedOptions := [],
    getValue := some (JValue.obj [("n", JValue.num 1)]) }

/-- The control that refutes C3's "non-empty name" condition: an enabled text
input whose `name` attribute is present but empty — the CSS attribute selector
`[name]` tests attribute presence, so this control is matched. -/
def emptyNameInput : Control :=
  { tag := Tag.input, type := "text", nameAttr := some "", disabled := false,
    value := "v", checked := false, multiple := false, selectedOptions := [], getValue := none }

/-! ### Lemmas -/

lemma isScalar_ne_null {v : JValue} (h : v.isScalar = true) : v ≠ JValue.null := by
  cases v <;> simp_all [JValue.isScalar]

lemma collapsedEntry_cons (v : JValue) (vs : List JValue) :
    collapsedEntry (v :: vs) = extendScalar v vs := by
  cases vs <;> rfl

lemma getVal_entryMap (nm : String) (cur : Option JValue) :
    getVal (entryMap nm cur) nm = cur := by
  cases cur <;> simp [getVal, entryMap]

lemma setVal_nil (k : String) (v : JValue) : setVal [] k v = [(k, v)] := by
  simp [setVal]

lemma setVal_singleton (k : String) (w v : JValue) : setVal [(k, w)] k v = [(k, v)] := by
  simp [setVal]

lemma foldStep_entryMap (nm : String) (cur : Option JValue) (v : JValue) :
    foldStep (entryMap nm cur) nm v = entryMap nm (some (entryStep cur v)) := by
  cases cur with
  | none =>
    simp only [foldStep, getVal_entryMap]
    simp [entryStep, setVal_nil, entryMap]
  | some prev =>
    simp only [foldStep, getVal_entryMap]
    by_cases hp : prev = JValue.null
    · subst hp
      simp [entryStep, setVal_singleton, entryMap]
    · by_cases hv : v = JValue.null
      · subst hv
        simp [entryStep, hp, entryMap]
      · cases prev <;> cases v <;>
          simp_all [entryStep, setVal_singleton, entryMap]

lemma entryFold_cons (cur : Option JValue) (v : JValue) (vs : List JValue) :
    entryFold cur (v :: vs) = entryFold (some (entryStep cur v)) vs := rfl

lemma foldl_merge_pairs (nm : String) (vs : List JValue) (cur : Option JValue) :
    ((vs.map (fun v => (nm, v))).foldl (fun d p => foldStep d p.1 p.2) (entryMap nm cur))
      = entryMap nm (entryFold cur vs) := by
  induction vs generalizing cur with
  | nil => simp [entryFold]
  | cons v vs ih =>
    simp only [List.map_cons, List.foldl_cons]
    rw [foldStep_entryMap, ih, entryFold_cons]

lemma entryStep_some_null {prev : JValue} (hp : prev ≠ JValue.null) :
    entryStep (some prev) JValue.null = prev := by
  simp [entryStep, hp]

lemma entryStep_arr_scalar (xs : List JValue) {v : JValue} (hv : v.isScalar = true) :
    entryStep (some (JValue.arr xs)) v = JValue.arr (xs ++ [v]) := by
  cases v <;> simp_all [entryStep, JValue.isScalar]

lemma entryStep_scalar_scalar {w v : JValue} (hw : w.isScalar = true) (hv : v.isScalar = true) :
    entryStep (some w) v = JValue.arr [w, v] := by
  cases w <;> cases v <;> simp_all [entryStep, JValue.isScalar]

lemma entryFold_arr (xs : List JValue) (vs : List JValue)
    (h : ∀ v ∈ vs, v = JValue.null ∨ v.isScalar = true) :
    entryFold (some (JValue.arr xs)) vs = some (JValue.arr (xs ++ nonNulls vs)) := by
  induction vs generalizing xs with
  | nil => simp [entryFold, nonNulls]
  | cons v vs ih =>
    rcases h v (by simp) with hv | hv
    · subst hv
      rw [entryFold_cons, entryStep_some_null (by simp)]
      rw [ih xs (fun x hx => h x (by simp [hx]))]
      simp [nonNulls]
    · rw [entryFold_cons, entryStep_arr_scalar xs hv]
      rw [ih (xs ++ [v]) (fun x hx => h x (by simp [hx]))]
      simp [nonNulls, isScalar_ne_null hv]

lemma entryFold_scalar {w : JValue} (hw : w.isScalar = true) (vs : List JValue)
    (h : ∀ v ∈ vs, v = JValue.null ∨ v.isScalar = true) :
    entryFold (some w) vs = some (extendScalar w (nonNulls vs)) := by
  induction vs with
  | nil => simp [entryFold, nonNulls, extendScalar]
  | cons v vs ih =>
    rcases h v (by simp) with hv | hv
    · subst hv
      rw [entryFold_cons, entryStep_some_null (isScalar_ne_null hw)]
      rw [ih (fun x hx => h x (by simp [hx]))]
      simp [nonNulls]
    · rw [entryFold_cons, entryStep_scalar_scalar hw hv]
      rw [entryFold_arr [w, v] vs (fun x hx => h x (by simp [hx]))]
      simp [nonNulls, isScalar_ne_null hv, extendScalar]

lemma entryFold_null (vs : List JValue)
    (h : ∀ v ∈ vs, v = JValue.null ∨ v.isScalar = true) :
    entryFold (some JValue.null) vs = some (mergedEntry vs) := by
  induction vs with
  | nil => simp [entryFold, mergedEntry, nonNulls]
  | cons v vs ih =>
    rcases h v (by simp) with hv | hv
    · subst hv
      rw [entryFold_cons]
      have : entryStep (some JValue.null) JValue.null = JValue.null := by simp [entryStep]
      rw [this, ih (fun x hx => h x (by simp [hx]))]
      simp [mergedEntry, nonNulls]
    · rw [entryFold_cons]
      have : entryStep (some JValue.null) v = v := by simp [entryStep]
      rw [this, entryFold_scalar hv vs (fun x hx => h x (by simp [hx]))]
      simp [mergedEntry, nonNulls, isScalar_ne_null hv]

lemma entryFold_none (vs : List JValue) (hne : vs ≠ [])
    (h : ∀ v ∈ vs, v = JValue.null ∨ v.isScalar = true) :
    entryFold none vs = some (mergedEntry vs) := by
  cases vs with
  | nil => exact absurd rfl hne
  | cons v vs =>
    rw [entryFold_cons]
    have hstep : entryStep none v = v := rfl
    rcases h v (by simp) with hv | hv
    · subst hv
      rw [hstep, entryFold_null vs (fun x hx => h x (by simp [hx]))]
      simp [mergedEntry, nonNulls]
    · rw [hstep, entryFold_scalar hv vs (fun x hx => h x (by simp [hx]))]
      simp [mergedEntry, nonNulls, isScalar_ne_null hv]

lemma loop_eq_walked (cs : List Control) (d : OMap) :
    cs.foldl
        (fun d child =>
          if skippedType child then d
          else foldStep d (child.nameAttr.getD "") (getChildValue child)) d
      = (cs.filterMap
          (fun child =>
            if skippedType child then none
            else some (child.nameAttr.getD "", getChildValue child))).foldl
          (fun d p => foldStep d p.1 p.2) d := by
  induction cs generalizing d with
  | nil => rfl
  | cons c cs ih =>
    by_cases hc : skippedType c <;> simp [hc, List.filterMap_cons, ih]

/-- Helper for C3: pushing the selector filter and the type skip into one
document-order filter. -/
lemma walked_eq_filter (cs : List Control) :
    (cs.filter matchesSelector).filterMap
        (fun child =>
          if skippedType child then none
          else some (child.nameAttr.getD "", getChildValue child))
      = (cs.filter (fun c => matchesSelector c && !skippedType c)).map
          (fun c => (c.nameAttr.getD "", getChildValue c)) := by
  induction cs with
  | nil => rfl
  | cons c cs ih =>
    by_cases hm : matchesSelector c <;> by_cases hs : skippedType c <;>
      simp [hm, hs, List.filter_cons, List.filterMap_cons, ih]

lemma buildMap_no_opts (f : Form) :
    buildMap f {} = (walkedPairs f).foldl (fun d p => foldStep d p.1 p.2) [] := by
  show (f.controls.filter matchesSelector).foldl
      (fun d child =>
        if skippedType child then d
        else foldStep d (child.nameAttr.getD "") (getChildValue child)) []
    = _
  rw [loop_eq_walked]
  rfl

lemma map_const_fst (nm : String) (l : List (String × JValue))
    (h : ∀ p ∈ l, p.1 = nm) :
    l = (l.map Prod.snd).map (fun v => (nm, v)) := by
  induction l with
  | nil => simp
  | cons p l ih =>
    obtain ⟨a, b⟩ := p
    have h1 : a = nm := h (a, b) (by simp)
    subst h1
    simp only [List.map_cons]
    rw [← ih (fun q hq => h q (by simp [hq]))]

lemma buildMap_single_name (f : Form) (nm : String)
    (hnm : ∀ p ∈ walkedPairs f, p.1 = nm) :
    buildMap f {} = entryMap nm (entryFold none ((walkedPairs f).map Prod.snd)) := by
  rw [buildMap_no_opts]
  calc
    (walkedPairs f).foldl (fun d p => foldStep d p.1 p.2) []
        = ((((walkedPairs f).map Prod.snd).map (fun v => (nm, v))).foldl
            (fun d p => foldStep d p.1 p.2) (entryMap nm none)) := by
          rw [← map_const_fst nm _ hnm]; rfl
    _ = entryMap nm (entryFold none ((walkedPairs f).map Prod.snd)) :=
          foldl_merge_pairs nm _ none

lemma nonNulls_of_scalar (vs : List JValue) (h : ∀ v ∈ vs, v.isScalar = true) :
    nonNulls vs = vs := by
  induction vs with
  | nil => rfl
  | cons v vs ih =>
    simp [nonNulls, isScalar_ne_null (h v (by simp)), ih (fun x hx => h x (by simp [hx]))]

lemma foldl_fixed_of_step_id {α β : Type} (l : List β) (init : α) (g : α → β → α)
    (h : ∀ d x, g d x = d) : l.foldl g init = init := by
  induction l generalizing init with
  | nil => rfl
  | cons x l ih => rw [List.foldl_cons, h, ih]

/-- The identity mutator leaves every visited entry in place. -/
lemma applyMutator_id (m : OMap) : applyMutator (fun _ v => some v) m = m := by
  unfold applyMutator
  exact foldl_fixed_of_step_id m m _ (fun d kv => by simp [mutStep])

lemma foldl_delVal_all (l : List (String × JValue)) (m : OMap)
    (h : ∀ p ∈ m, ∃ q ∈ l, p.1 = q.1) :
    l.foldl (fun d kv => delVal d kv.1) m = [] := by
  induction l generalizing m with
  | nil =>
    cases m with
    | nil => rfl
    | cons p m =>
      rcases h p (by simp) with ⟨q, hq, _⟩
      exact absurd hq (List.not_mem_nil q)
  | cons kv l ih =>
    rw [List.foldl_cons]
    apply ih
    intro p hp
    have hpm : p ∈ m ∧ ¬p.1 = kv.1 := by
      have := List.mem_filter.mp hp
      simpa [delVal] using this
    rcases h p hpm.1 with ⟨q, hq, hpq⟩
    rcases List.mem_cons.mp hq with hq1 | hq1
    · exact absurd (hq1 ▸ hpq) hpm.2
    · exact ⟨q, hq1, hpq⟩

/-- A mutator that always returns the delete sentinel removes every entry. -/
lemma applyMutator_const_none (m : OMap) : applyMutator (fun _ _ => none) m = [] := by
  unfold applyMutator
  exact foldl_delVal_all m m (fun p hp => ⟨p, hp, rfl⟩)

lemma mem_keys_setVal {k' : String} {m : OMap} {k : String} {v : JValue}
    (h : k' ∈ (setVal m k v).map Prod.fst) : k' = k ∨ k' ∈ m.map Prod.fst := by
  unfold setVal at h
  split at h
  · rcases List.mem_map.mp h with ⟨p, hp, rfl⟩
    rcases List.mem_map.mp hp with ⟨q, hq, rfl⟩
    by_cases hq1 : q.1 = k
    · left
      simp [hq1]
    · right
      rw [if_neg hq1]
      exact List.mem_map_of_mem Prod.fst hq
  · simp only [List.map_append, List.mem_append] at h
    rcases h with h | h
    · right
      exact h
    · left
      simpa using h

lemma mem_keys_delVal {k' : String} {m : OMap} {k : String}
    (h : k' ∈ (delVal m k).map Prod.fst) : k' ∈ m.map Prod.fst := by
  unfold delVal at h
  rcases List.mem_map.mp h with ⟨p, hp, rfl⟩
  exact List.mem_map_of_mem Prod.fst (List.mem_of_mem_filter hp)

/-- The merge loop body either leaves the mapping alone or sets the walked
name. -/
lemma foldStep_eq_or (m : OMap) (k : String) (v : JValue) :
    foldStep m k v = m ∨ ∃ w, foldStep m k v = setVal m k w := by
  unfold foldStep
  split
  · exact Or.inr ⟨_, rfl⟩
  · split
    · exact Or.inr ⟨_, rfl⟩
    · split
      · exact Or.inl rfl
      · split <;> exact Or.inr ⟨_, rfl⟩

lemma mem_keys_foldStep {k' : String} {m : OMap} {k : String} {v : JValue}
    (h : k' ∈ (foldStep m k v).map Prod.fst) : k' = k ∨ k' ∈ m.map Prod.fst := by
  rcases foldStep_eq_or m k v with he | ⟨w, he⟩
  · rw [he] at h
    exact Or.inr h
  · rw [he] at h
    exact mem_keys_setVal h

lemma mem_keys_mutStep {k' : String} {mutf : String → JValue → Option JValue} {d : OMap}
    {kv : String × JValue} (h : k' ∈ (mutStep mutf d kv).map Prod.fst) :
    k' = kv.1 ∨ k' ∈ d.map Prod.fst := by
  unfold mutStep at h
  split at h
  · exact Or.inr (mem_keys_delVal h)
  · split at h
    · exact Or.inr h
    · exact mem_keys_setVal h

lemma mem_keys_foldl_setVal {k' : String} (l : List (String × JValue)) (d : OMap)
    (h : k' ∈ (l.foldl (fun d kv => setVal d kv.1 kv.2) d).map Prod.fst) :
    k' ∈ d.map Prod.fst ∨ k' ∈ l.map Prod.fst := by
  induction l generalizing d with
  | nil => exact Or.inl h
  | cons kv l ih =>
    rw [List.foldl_cons] at h
    rcases ih _ h with h1 | h1
    · rcases mem_keys_setVal h1 with h2 | h2
      · right
        rw [List.map_cons, h2]
        exact List.mem_cons_self _ _
      · exact Or.inl h2
    · right
      rw [List.map_cons]
      exact List.mem_cons_of_mem _ h1

lemma mem_keys_foldl_foldStep {k' : String} (ps : List (String × JValue)) (d : OMap)
    (h : k' ∈ (ps.foldl (fun d p => foldStep d p.1 p.2) d).map Prod.fst) :
    k' ∈ d.map Prod.fst ∨ k' ∈ ps.map Prod.fst := by
  induction ps generalizing d with
  | nil => exact Or.inl h
  | cons p ps ih =>
    rw [List.foldl_cons] at h
    rcases ih _ h with h1 | h1
    · rcases mem_keys_foldStep h1 with h2 | h2
      · right
        rw [List.map_cons, h2]
        exact List.mem_cons_self _ _
      · exact Or.inl h2
    · right
      rw [List.map_cons]
      exact List.mem_cons_of_mem _ h1

lemma mem_keys_foldl_mutStep {k' : String} (mutf : String → JValue → Option JValue)
    (l : List (String × JValue)) (d : OMap)
    (h : k' ∈ (l.foldl (mutStep mutf) d).map Prod.fst) :
    k' ∈ d.map Prod.fst ∨ k' ∈ l.map Prod.fst := by
  induction l generalizing d with
  | nil => exact Or.inl h
  | cons kv l ih =>
    rw [List.foldl_cons] at h
    rcases ih _ h with h1 | h1
    · rcases mem_keys_mutStep h1 with h2 | h2
      · right
        rw [List.map_cons, h2]
        exact List.mem_cons_self _ _
      · exact Or.inl h2
    · right
      rw [List.map_cons]
      exact List.mem_cons_of_mem _ h1

/-- The walk-and-merge loop of `buildMap`, rewritten over the walker output. -/
lemma children_fold_eq_walked (f : Form) (d : OMap) :
    (f.controls.filter matchesSelector).foldl
        (fun d child =>
          if skippedType child then d
          else foldStep d (child.nameAttr.getD "") (getChildValue child)) d
      = (walkedPairs f).foldl (fun d p => foldStep d p.1 p.2) d := by
  rw [loop_eq_walked]
  rfl

lemma mem_keys_buildMap {k : String} (f : Form) (opts : FormToMapOptions)
    (hk : k ∈ (buildMap f opts).map Prod.fst) :
    k ∈ opts.prepend.map Prod.fst ∨ k ∈ (walkedPairs f).map Prod.fst
      ∨ k ∈ opts.append.map Prod.fst := by
  have main :
      ∀ hk3 : k ∈ ((opts.append.foldl (fun d kv => setVal d kv.1 kv.2)
          ((walkedPairs f).foldl (fun d p => foldStep d p.1 p.2)
            (opts.prepend.foldl (fun d kv => setVal d kv.1 kv.2) [])))).map Prod.fst,
        k ∈ opts.prepend.map Prod.fst ∨ k ∈ (walkedPairs f).map Prod.fst
          ∨ k ∈ opts.append.map Prod.fst := by
    intro hk3
    rcases mem_keys_foldl_setVal opts.append _ hk3 with hk2 | hk2
    · rcases mem_keys_foldl_foldStep (walkedPairs f) _ hk2 with hk1 | hk1
      · rcases mem_keys_foldl_setVal opts.prepend _ hk1 with hk0 | hk0
        · simp at hk0
        · exact Or.inl hk0
      · exact Or.inr (Or.inl hk1)
    · exact Or.inr (Or.inr hk2)
  cases hmut : opts.mutator with
  | none =>
    simp only [buildMap, hmut, children_fold_eq_walked] at hk
    exact main hk
  | some mutf =>
    simp only [buildMap, hmut, children_fold_eq_walked] at hk
    rcases mem_keys_foldl_mutStep mutf _ _ hk with hk3 | hk3
    · exact main hk3
    · exact main hk3

lemma getVal_cons (x : String × JValue) (m : OMap) (nm : String) :
    getVal (x :: m) nm = if x.1 = nm then some x.2 else getVal m nm := by
  by_cases h : x.1 = nm <;> simp [getVal, List.find?_cons, h]

lemma getVal_map_replace (m : OMap) (k : String) (v : JValue) (nm : String)
    (h : ¬k = nm) :
    getVal (m.map (fun p => if p.1 = k then (k, v) else p)) nm = getVal m nm := by
  induction m with
  | nil => rfl
  | cons q m ih =>
    rw [List.map_cons]
    by_cases hq : q.1 = k
    · rw [if_pos hq, getVal_cons, getVal_cons, if_neg h, if_neg (by rw [hq]; exact h), ih]
    · rw [if_neg hq, getVal_cons, getVal_cons, ih]

lemma getVal_append_single (m : OMap) (k : String) (v : JValue) (nm : String)
    (h : ¬k = nm) :
    getVal (m ++ [(k, v)]) nm = getVal m nm := by
  induction m with
  | nil => simp [getVal, List.find?_cons, h]
  | cons q m ih => rw [List.cons_append, getVal_cons, getVal_cons, ih]

/-- `set` on one key does not change `get` on another. -/
lemma getVal_setVal_ne (m : OMap) (k : String) (v : JValue) (nm : String)
    (h : ¬k = nm) :
    getVal (setVal m k v) nm = getVal m nm := by
  unfold setVal
  split
  · exact getVal_map_replace m k v nm h
  · exact getVal_append_single m k v nm h

lemma getVal_map_set_self (m : OMap) (k : String) (v : JValue)
    (hany : m.any (fun p => p.1 == k) = true) :
    getVal (m.map (fun p => if p.1 = k then (k, v) else p)) k = some v := by
  induction m with
  | nil => simp at hany
  | cons q m ih =>
    rw [List.map_cons]
    by_cases hq : q.1 = k
    · rw [if_pos hq, getVal_cons]
      simp
    · rw [if_neg hq, getVal_cons, if_neg hq]
      apply ih
      simp only [List.any_cons, Bool.or_eq_true] at hany
      rcases hany with h1 | h1
      · exact absurd (by simpa using h1) hq
      · exact h1

lemma getVal_append_self (m : OMap) (k : String) (v : JValue)
    (hany : ¬m.any (fun p => p.1 == k) = true) :
    getVal (m ++ [(k, v)]) k = some v := by
  induction m with
  | nil => simp [getVal, List.find?_cons]
  | cons q m ih =>
    rw [List.cons_append, getVal_cons]
    simp only [List.any_cons, Bool.or_eq_true] at hany
    push_neg at hany
    rw [if_neg (by simpa using hany.1)]
    exact ih (by simpa using hany.2)

/-- `get` after `set` on the same key returns the value just set. -/
lemma getVal_setVal_self (m : OMap) (k : String) (v : JValue) :
    getVal (setVal m k v) k = some v := by
  unfold setVal
  split
  · next hany => exact getVal_map_set_self m k v hany
  · next hany => exact getVal_append_self m k v hany

/-- When the entry for a name is absent or `null`, the merge loop body is a
plain `set` of the new value. -/
lemma foldStep_nullish_set (m : OMap) (nm : String) (v : JValue)
    (hm : getVal m nm = none ∨ getVal m nm = some JValue.null) :
    foldStep m nm v = setVal m nm v := by
  rcases hm with h | h
  · simp only [foldStep, h]
  · simp only [foldStep, h]
    simp

/-- The merge loop body for one name does not disturb another name's entry. -/
lemma getVal_foldStep_ne (m : OMap) (k : String) (v : JValue) (nm : String)
    (h : ¬k = nm) : getVal (foldStep m k v) nm = getVal m nm := by
  rcases foldStep_eq_or m k v with he | ⟨w, he⟩
  · rw [he]
  · rw [he, getVal_setVal_ne m k w nm h]

/-- Folding walked pairs whose values at the name `nm` are all `null` leaves
`nm` bound to `null` (when some pair names it) or untouched (when none does),
provided the entry starts absent or `null`. -/
lemma getVal_fold_nullpairs (nm : String) (ps : List (String × JValue)) :
    ∀ m : OMap,
      (∀ p ∈ ps, p.1 = nm → p.2 = JValue.null) →
      (getVal m nm = none ∨ getVal m nm = some JValue.null) →
      getVal (ps.foldl (fun d p => foldStep d p.1 p.2) m) nm
        = (if ps.any (fun p => p.1 == nm) then some JValue.null else getVal m nm) := by
  induction ps with
  | nil =>
    intro m _ _
    simp
  | cons p ps ih =>
    intro m hps hm
    rw [List.foldl_cons]
    by_cases hp1 : p.1 = nm
    · have hp2 : p.2 = JValue.null := hps p (by simp) hp1
      have hstep : foldStep m p.1 p.2 = setVal m nm JValue.null := by
        rw [hp1, hp2]
        exact foldStep_nullish_set m nm JValue.null hm
      rw [hstep]
      have hm' : getVal (setVal m nm JValue.null) nm = none
          ∨ getVal (setVal m nm JValue.null) nm = some JValue.null :=
        Or.inr (getVal_setVal_self m nm JValue.null)
      rw [ih _ (fun q hq => hps q (by simp [hq])) hm']
      have hany : ((p :: ps).any (fun q => q.1 == nm)) = true := by simp [hp1]
      by_cases hpsany : ps.any (fun q => q.1 == nm) = true
      · rw [if_pos hpsany, if_pos hany]
      · rw [if_neg hpsany, if_pos hany, getVal_setVal_self]
    · have hstep : getVal (foldStep m p.1 p.2) nm = getVal m nm :=
        getVal_foldStep_ne m p.1 p.2 nm hp1
      have hm' : getVal (foldStep m p.1 p.2) nm = none
          ∨ getVal (foldStep m p.1 p.2) nm = some JValue.null := by
        rw [hstep]
        exact hm
      rw [ih _ (fun q hq => hps q (by simp [hq])) hm', hstep]
      have hcons : ((p :: ps).any (fun q => q.1 == nm)) = (ps.any (fun q => q.1 == nm)) := by
        simp [hp1]
      rw [hcons]

/-! ### Claim theorems -/

/-- C1: for a form whose eligible controls all share one name and all yield
non-null scalar values, the result mapping is the single entry for that name
holding those values in first-to-subsequent walk order — a bare scalar for one
occurrence (`collapsedEntry [v] = v`), an ordered array for two or more. -/
theorem c1_shared_name_accumulates_in_order (f : Form) (nm : String)
    (hne : walkedPairs f ≠ [])
    (hnm : ∀ p ∈ walkedPairs f, p.1 = nm)
    (hsc : ∀ p ∈ walkedPairs f, p.2.isScalar = true) :
    formToMap (FormArg.form f) {} =
      Except.ok [(nm, collapsedEntry ((walkedPairs f).map Prod.snd))] := by
  have hvs : ∀ v ∈ (walkedPairs f).map Prod.snd, v = JValue.null ∨ v.isScalar = true := by
    intro v hv
    rcases List.mem_map.mp hv with ⟨p, hp, rfl⟩
    exact Or.inr (hsc p hp)
  have hne' : (walkedPairs f).map Prod.snd ≠ [] := by simpa using hne
  have hnn : nonNulls ((walkedPairs f).map Prod.snd) = (walkedPairs f).map Prod.snd := by
    refine nonNulls_of_scalar _ ?_
    intro v hv
    rcases List.mem_map.mp hv with ⟨p, hp, rfl⟩
    exact hsc p hp
  obtain ⟨v, vs', hcons⟩ := List.exists_cons_of_ne_nil hne'
  have hcons' : nonNulls ((walkedPairs f).map Prod.snd) = v :: vs' := by
    rw [hnn, hcons]
  have hm : mergedEntry ((walkedPairs f).map Prod.snd) = extendScalar v vs' := by
    unfold mergedEntry
    rw [hcons']
  have hok : formToMap (FormArg.form f) {} = Except.ok (buildMap f {}) := rfl
  rw [hok, buildMap_single_name f nm hnm, entryFold_none _ hne' hvs, hm, hcons,
    collapsedEntry_cons]
  rfl

/-- Witness for C1: two text inputs named `t` with values `a` and `b`. -/
theorem c1_shared_name_accumulates_in_order_witness :
    formToMap (FormArg.form (Form.mk [textInput "t" "a", textInput "t" "b"])) {} =
      Except.ok [("t", collapsedEntry
        ((walkedPairs (Form.mk [textInput "t" "a", textInput "t" "b"])).map Prod.snd))] :=
  c1_shared_name_accumulates_in_order (Form.mk [textInput "t" "a", textInput "t" "b"]) "t"
    (by decide) (by decide) (by decide)

/-- C2: an unchecked checkable control whose name already holds a non-null
entry contributes nothing — the merge step leaves the mapping untouched
(first conjunct); and whatever the positions of the unchecked siblings in
document order, only the non-null values of a shared name reach its entry, so
no `null` appears in the scalar/array entry (second conjunct). -/
theorem c2_unchecked_contributes_nothing :
    (∀ (m : OMap) (nm : String) (prev : JValue),
        getVal m nm = some prev → prev ≠ JValue.null →
        foldStep m nm JValue.null = m)
    ∧ ∀ (f : Form) (nm : String),
        (∀ p ∈ walkedPairs f, p.1 = nm) →
        (∀ p ∈ walkedPairs f, p.2 = JValue.null ∨ p.2.isScalar = true) →
        nonNulls ((walkedPairs f).map Prod.snd) ≠ [] →
        formToMap (FormArg.form f) {} =
          Except.ok [(nm, collapsedEntry (nonNulls ((walkedPairs f).map Prod.snd)))] := by
  constructor
  · intro m nm prev hg hnn
    simp only [foldStep, hg]
    simp [hnn]
  · intro f nm hnm hvals hne
    have hvs : ∀ v ∈ (walkedPairs f).map Prod.snd, v = JValue.null ∨ v.isScalar = true := by
      intro v hv
      rcases List.mem_map.mp hv with ⟨p, hp, rfl⟩
      exact hvals p hp
    have hne0 : (walkedPairs f).map Prod.snd ≠ [] := by
      intro h0
      rw [h0] at hne
      exact hne rfl
    obtain ⟨v, vs', hcons⟩ := List.exists_cons_of_ne_nil hne
    have hok : formToMap (FormArg.form f) {} = Except.ok (buildMap f {}) := rfl
    rw [hok, buildMap_single_name f nm hnm, entryFold_none _ hne0 hvs]
    simp only [mergedEntry, hcons, collapsedEntry_cons, entryMap]

/-- Witness for C2: an unchecked checkbox before a checked one of the same
name; the entry holds just the checked value. -/
theorem c2_unchecked_contributes_nothing_witness :
    formToMap (FormArg.form (Form.mk [checkboxInput "c" "no" false,
        checkboxInput "c" "yes" true])) {} =
      Except.ok [("c", collapsedEntry (nonNulls
        ((walkedPairs (Form.mk [checkboxInput "c" "no" false,
          checkboxInput "c" "yes" true])).map Prod.snd)))] :=
  c2_unchecked_contributes_nothing.2
    (Form.mk [checkboxInput "c" "no" false, checkboxInput "c" "yes" true]) "c"
    (by decide) (by decide) (by decide)

/-- C4: a callable custom `getValue` wins over all built-in extraction — the
extracted value is exactly its result, whatever the control's tag, type,
checked state or multiplicity. -/
theorem c4_getValue_precedence (c : Control) (v : JValue) (h : c.getValue = some v) :
    getChildValue c = v := by
  simp [getChildValue, h]

/-- Witness for C4: the custom value is used verbatim even though the control
would otherwise be an unchecked checkbox. -/
theorem c4_getValue_precedence_witness :
    getChildValue customCheckbox = JValue.obj [("n", JValue.num 1)] :=
  c4_getValue_precedence customCheckbox _ rfl

/-- C5: a checkable control (checkbox/radio) without custom `getValue`
extracts its native value string when checked and `null` when unchecked; and
when such an unchecked control is in the form, its name is on no other
control, and no seeds are given, the result mapping's entry for that name is
`null`. -/
theorem c5_unchecked_checkable_null (c : Control) (nm : String) (f : Form)
    (hgv : c.getValue = none) (htag : c.tag = Tag.input)
    (htype : toLowerStr c.type = "checkbox" ∨ toLowerStr c.type = "radio") :
    getChildValue c = (if c.checked then JValue.str c.value else JValue.null)
    ∧ (c.checked = false → c.nameAttr = some nm → c.disabled = false →
        c ∈ f.controls →
        (∀ c' ∈ f.controls, c'.nameAttr.getD "" = nm → c' = c) →
        getVal (buildMap f {}) nm = some JValue.null) := by
  have hval : getChildValue c = (if c.checked then JValue.str c.value else JValue.null) := by
    rcases htype with h | h <;> simp [getChildValue, hgv, htag, h]
  refine ⟨hval, fun hck hname hdis hcmem huniq => ?_⟩
  have hskip : skippedType c = false := by
    rcases htype with h | h <;> simp [skippedType, h]
  have hmatch : matchesSelector c = true := by
    simp [matchesSelector, hname, hdis]
  have hw : walkedPairs f
      = (f.controls.filter (fun c => matchesSelector c && !skippedType c)).map
          (fun c => (c.nameAttr.getD "", getChildValue c)) := walked_eq_filter f.controls
  have hnullpairs : ∀ p ∈ walkedPairs f, p.1 = nm → p.2 = JValue.null := by
    intro p hp hp1
    rw [hw] at hp
    rcases List.mem_map.mp hp with ⟨c', hc', heq⟩
    have hc'mem : c' ∈ f.controls := List.mem_of_mem_filter hc'
    have hc'name : c'.nameAttr.getD "" = nm := by
      rw [← heq] at hp1
      exact hp1
    have hcc : c' = c := huniq c' hc'mem hc'name
    rw [← heq]
    show getChildValue c' = JValue.null
    rw [hcc, hval, hck]
    rfl
  have hmem : (nm, JValue.null) ∈ walkedPairs f := by
    rw [hw]
    apply List.mem_map.mpr
    refine ⟨c, List.mem_filter.mpr ⟨hcmem, ?_⟩, ?_⟩
    · simp [hmatch, hskip]
    · simp [hname, hval, hck]
  have hany : (walkedPairs f).any (fun p => p.1 == nm) = true :=
    List.any_eq_true.mpr ⟨(nm, JValue.null), hmem, by simp⟩
  rw [buildMap_no_opts, getVal_fold_nullpairs nm (walkedPairs f) [] hnullpairs (Or.inl rfl),
    if_pos hany]

/-- Witness for C5: a form with a text input `a` and an unchecked checkbox
`flag`; the entry for `flag` is `null`. -/
theorem c5_unchecked_checkable_null_witness :
    getVal (buildMap (Form.mk [textInput "a" "1", checkboxInput "flag" "on" false]) {})
        "flag" = some JValue.null :=
  (c5_unchecked_checkable_null (checkboxInput "flag" "on" false) "flag"
      (Form.mk [textInput "a" "1", checkboxInput "flag" "on" false])
      rfl rfl (Or.inl rfl)).2 rfl rfl rfl (by decide) (by decide)

/-- C3 counterexample: the enabled text input with the empty-but-present
`name` attribute participates in the walk, contributing the pair
`("", "v")` and the result entry `"" ↦ "v"` — its name is not non-empty, so
"participates only if it has a non-empty name" is false on the code. -/
theorem c3_empty_name_participates :
    walkedPairs (Form.mk [emptyNameInput]) = [("", JValue.str "v")]
    ∧ formToMap (FormArg.form (Form.mk [emptyNameInput])) {} =
        Except.ok [("", JValue.str "v")] :=
  ⟨rfl, rfl⟩

/-- C3 amended: a control participates in the walk (contributes its
`(name, value)` pair, in document order) iff it carries a `name` attribute —
which may be empty — is not disabled, and its lower-cased type is none of
"submit", "button", "reset" or "file".  Controls failing the filter (file
inputs, controls lacking the attribute) are skipped silently, never an
error. -/
theorem c3_eligibility_amended (f : Form) :
    walkedPairs f =
      (f.controls.filter
          (fun c => c.nameAttr.isSome && !c.disabled &&
            !(["submit", "button", "reset", "file"].contains (toLowerStr c.type)))).map
        (fun c => (c.nameAttr.getD "", getChildValue c)) :=
  walked_eq_filter f.controls

/-- C7: if the mutator is the identity function the output equals the mapping
as it stood after the append step (the run with no mutator); a mutator that
constantly returns the delete sentinel empties the mapping.  The pass iterates
the snapshot of entries present when it starts, each exactly once. -/
theorem c7_mutator_laws (f : Form) (prep app : List (String × JValue)) :
    formToMap (FormArg.form f)
        { mutator := some (fun _ v => some v), prepend := prep, append := app }
      = formToMap (FormArg.form f) { mutator := none, prepend := prep, append := app }
    ∧ formToMap (FormArg.form f)
        { mutator := some (fun _ _ => none), prepend := prep, append := app }
      = Except.ok [] :=
  ⟨congrArg Except.ok (applyMutator_id _), congrArg Except.ok (applyMutator_const_none _)⟩

/-- C8: a nullish argument or any non-`HTMLFormElement` value makes `formToMap`
fail synchronously with the `InvalidArgument` error and produce no mapping; a
genuine form never triggers that validation error — it always yields `ok` with
the built mapping. -/
theorem c8_invalid_argument (opts : FormToMapOptions) :
    formToMap FormArg.nullish opts = Except.error FormToMapError.invalidArgument
    ∧ formToMap FormArg.nonFormValue opts = Except.error FormToMapError.invalidArgument
    ∧ ∀ f : Form, formToMap (FormArg.form f) opts = Except.ok (buildMap f opts) :=
  ⟨rfl, rfl, fun _ => rfl⟩

/-- C6: every key of the result mapping comes from the prepend seed, a walked
control name, or the append seed.  (The value half of the invariant — no
`undefined` is ever stored — holds by construction here: stored values are
`JValue`s, i.e. JSON-compatible, and the mutator's `undefined` return is the
`none` of an `Option`, which deletes instead of storing.) -/
theorem c6_keys_invariant (f : Form) (opts : FormToMapOptions) (m : OMap)
    (h : formToMap (FormArg.form f) opts = Except.ok m) :
    ∀ k ∈ m.map Prod.fst,
      k ∈ opts.prepend.map Prod.fst ∨ k ∈ (walkedPairs f).map Prod.fst
        ∨ k ∈ opts.append.map Prod.fst := by
  intro k hk
  have h' : Except.ok (buildMap f opts) = Except.ok m := h
  have hm : m = buildMap f opts := (Except.ok.inj h').symm
  rw [hm] at hk
  exact mem_keys_buildMap f opts hk

/-- Witness for C6: a one-input form with both seeds; the key `"a"` of the
result is a walked control name. -/
theorem c6_keys_invariant_witness :
    "a" ∈ ([("p", JValue.str "s")] : List (String × JValue)).map Prod.fst
      ∨ "a" ∈ (walkedPairs (Form.mk [textInput "a" "1"])).map Prod.fst
      ∨ "a" ∈ ([("q", JValue.bool true)] : List (String × JValue)).map Prod.fst :=
  c6_keys_invariant (Form.mk [textInput "a" "1"])
    { mutator := none, append := [("q", JValue.bool true)], prepend := [("p", JValue.str "s")] }
    [("p", JValue.str "s"), ("a", JValue.str "1"), ("q", JValue.bool true)]
    rfl "a" (by decide)

/-- C9: when the current entry for a name holds `null`, the merge treats it as
if absent — the next walked value for that name replaces the entry outright
(`data.set`), whether that value is `null`, a scalar or a list, so no
`[null, value]` array is ever formed. -/
theorem c9_null_entry_replaced (m : OMap) (nm : String) (v : JValue)
    (h : getVal m nm = some JValue.null) :
    foldStep m nm v = setVal m nm v := by
  simp only [foldStep, h]
  simp

/-- Witness for C9: a `null` entry overwritten by a list value. -/
theorem c9_null_entry_replaced_witness :
    foldStep [("k", JValue.null)] "k" (JValue.arr [JValue.str "a"])
      = setVal [("k", JValue.null)] "k" (JValue.arr [JValue.str "a"]) :=
  c9_null_entry_replaced [("k", JValue.null)] "k" (JValue.arr [JValue.str "a"]) rfl

lemma setVal_middle (A B : OMap) (k : String) (v nv : JValue)
    (hA : ∀ p ∈ A, p.1 ≠ k) (hB : ∀ p ∈ B, p.1 ≠ k) :
    setVal (A ++ (k, v) :: B) k nv = A ++ (k, nv) :: B := by
  unfold setVal
  have hany : ((A ++ (k, v) :: B).any (fun p => p.1 == k)) = true := by
    simp [List.any_append]
  rw [if_pos hany, List.map_append, List.map_cons]
  have hAmap : A.map (fun p => if p.1 = k then (k, nv) else p) = A := by
    calc A.map (fun p => if p.1 = k then (k, nv) else p)
        = A.map id := List.map_congr_left (fun p hp => by rw [if_neg (hA p hp)]; rfl)
      _ = A := List.map_id A
  have hBmap : B.map (fun p => if p.1 = k then (k, nv) else p) = B := by
    calc B.map (fun p => if p.1 = k then (k, nv) else p)
        = B.map id := List.map_congr_left (fun p hp => by rw [if_neg (hB p hp)]; rfl)
      _ = B := List.map_id B
  rw [hAmap, hBmap]
  simp

lemma delVal_middle (A B : OMap) (k : String) (v : JValue)
    (hA : ∀ p ∈ A, p.1 ≠ k) (hB : ∀ p ∈ B, p.1 ≠ k) :
    delVal (A ++ (k, v) :: B) k = A ++ B := by
  unfold delVal
  rw [List.filter_append, List.filter_cons]
  have hAf : A.filter (fun p => !(p.1 == k)) = A :=
    List.filter_eq_self.mpr (fun p hp => by simp [hA p hp])
  have hBf : B.filter (fun p => !(p.1 == k)) = B :=
    List.filter_eq_self.mpr (fun p hp => by simp [hB p hp])
  rw [hAf, hBf]
  simp

/-- The mutation pass over a snapshot: with unique keys, folding the callback
over the entries maps each one in place — `none` deletes it, any other result
replaces its value without moving it. -/
lemma foldl_mutStep_snapshot (mutf : String → JValue → Option JValue) :
    ∀ (l A : OMap),
      (∀ p ∈ A, ∀ q ∈ l, p.1 ≠ q.1) →
      (l.map Prod.fst).Nodup →
      l.foldl (mutStep mutf) (A ++ l)
        = A ++ l.filterMap (fun p => (mutf p.1 p.2).map (fun nv => (p.1, nv))) := by
  intro l
  induction l with
  | nil =>
    intro A _ _
    simp
  | cons kv l ih =>
    intro A hdisj hnodup
    obtain ⟨k, v⟩ := kv
    have hkA : ∀ p ∈ A, p.1 ≠ k := fun p hp => hdisj p hp (k, v) (by simp)
    have h0 : (k :: l.map Prod.fst).Nodup := by
      rw [List.map_cons] at hnodup
      exact hnodup
    have hknotl : k ∉ l.map Prod.fst := (List.nodup_cons.mp h0).1
    have hkl : ∀ p ∈ l, p.1 ≠ k := by
      intro p hp hpk
      exact hknotl (hpk ▸ List.mem_map_of_mem Prod.fst hp)
    have hnodup' : (l.map Prod.fst).Nodup := (List.nodup_cons.mp h0).2
    rw [List.foldl_cons]
    cases hmv : mutf k v with
    | none =>
      have hstep : mutStep mutf (A ++ (k, v) :: l) (k, v) = A ++ l := by
        unfold mutStep
        simp only [hmv]
        exact delVal_middle A l k v hkA hkl
      have hdisj' : ∀ p ∈ A, ∀ q ∈ l, p.1 ≠ q.1 :=
        fun p hp q hq => hdisj p hp q (by simp [hq])
      rw [hstep, ih A hdisj' hnodup']
      simp [List.filterMap_cons, hmv]
    | some nv =>
      have hstep : mutStep mutf (A ++ (k, v) :: l) (k, v) = (A ++ [(k, nv)]) ++ l := by
        unfold mutStep
        simp only [hmv]
        by_cases hnveq : nv = v
        · rw [if_pos hnveq]
          subst hnveq
          simp
        · rw [if_neg hnveq, setVal_middle A l k v nv hkA hkl]
          simp
      have hdisj' : ∀ p ∈ A ++ [(k, nv)], ∀ q ∈ l, p.1 ≠ q.1 := by
        intro p hp q hq
        rcases List.mem_append.mp hp with hp1 | hp1
        · exact hdisj p hp1 q (by simp [hq])
        · have hpk : p = (k, nv) := by simpa using hp1
          rw [hpk]
          exact fun h1 => (hkl q hq) h1.symm
      rw [hstep, ih (A ++ [(k, nv)]) hdisj' hnodup']
      simp [List.filterMap_cons, hmv]

/-- C10: the delete sentinel is exactly the `undefined` return (`none`): with
the `Map`'s unique keys, the mutation pass rewrites each entry in place —
`none` deletes it, `some null` keeps the entry with value `null` (so `null`
is not a delete sentinel), and any other result replaces the value while the
entry keeps its position in the mapping order. -/
theorem c10_mutator_delete_sentinel (mutf : String → JValue → Option JValue) (m : OMap)
    (hnodup : (m.map Prod.fst).Nodup) :
    applyMutator mutf m
      = m.filterMap (fun p => (mutf p.1 p.2).map (fun nv => (p.1, nv))) := by
  have h := foldl_mutStep_snapshot mutf m [] (by simp) hnodup
  simpa [applyMutator] using h

/-- Witness for C10: one deleted key, one nullified key (kept), one replaced
key, in place. -/
theorem c10_mutator_delete_sentinel_witness :
    applyMutator
        (fun k _ => if k = "drop" then none
          else if k = "nullify" then some JValue.null else some (JValue.str "new"))
        [("drop", JValue.str "a"), ("nullify", JValue.str "b"), ("keep", JValue.str "c")]
      = ([("drop", JValue.str "a"), ("nullify", JValue.str "b"),
          ("keep", JValue.str "c")] : OMap).filterMap
          (fun p =>
            ((fun k _ => if k = "drop" then none
              else if k = "nullify" then some JValue.null else some (JValue.str "new"))
                p.1 p.2).map (fun nv => (p.1, nv))) :=
  c10_mutator_delete_sentinel
    (fun k _ => if k = "drop" then none
      else if k = "nullify" then some JValue.null else some (JValue.str "new"))
    [("drop", JValue.str "a"), ("nullify", JValue.str "b"), ("keep", JValue.str "c")]
    (by decide)

end Formap
